import Mathlib

/-!
Verification development for the counterparty bubble visualiser.

The definitions below are a shallow embedding of the JavaScript source:

* `toggleLinkExpansion`, `processLinksWithExpansions` — the link-expansion
  hook (`useExpandedLinks`, the v1-API version whose sent/received entries use
  the named fields `from_address` / `to_address` / `value_usd`).
* `getProcessedData` — the Graph Builder of `useVisualizationData`.
* `pendulumStep` / `pendulumMaintenance`, `mainNodeRepulsionStep`,
  `dragended` — the custom simulation forces and the drag-end handler of the
  D3 visualization component.

Modelling conventions, each noted again at the definition it concerns:
JavaScript numbers are exact rationals where every arithmetic step a theorem
evaluates is exact in IEEE-754 double arithmetic, and a three-constructor
extended type (`JsNum`) where the special values NaN and the infinities
matter; absent (`undefined`) object fields are `Option.none` (or `false` for
booleans, `[]` for arrays); a JS `Map` / `Set` is an insertion-ordered
association list / list without duplicates; an `async` function is embedded as
a pure function over the awaited result.
-/

namespace CBV

/-! ## Small string helpers (JS `String.prototype.includes`, `toLowerCase`) -/

/-- Whether the second list is a prefix of the first (character lists). -/
def charsStart : List Char → List Char → Bool
  | _, [] => true
  | [], _ :: _ => false
  | c :: cs, p :: ps => c == p && charsStart cs ps

/-- Whether `pat` occurs somewhere inside `l` (character lists). -/
def charsSub (pat : List Char) : List Char → Bool
  | [] => charsStart [] pat
  | c :: cs => charsStart (c :: cs) pat || charsSub pat cs

/-- JS `s.includes(pat)`. -/
def strIncludes (s pat : String) : Bool :=
  charsSub pat.toList s.toList

/-- JS `label?.includes(pat)`: `undefined` is falsy. -/
def labelIncludes (label : Option String) (pat : String) : Bool :=
  match label with
  | some s => strIncludes s pat
  | none => false

/-- ASCII lower-casing, agreeing with JS `toLowerCase` on the ASCII hex
addresses the program handles. -/
def asciiLower (s : String) : String :=
  String.mk (s.toList.map fun c => if c.isUpper then Char.ofNat (c.toNat + 32) else c)

/-- JS `addr?.toLowerCase() === other.toLowerCase()`: a missing address field
compares unequal to every string. -/
def addrEq (a : Option String) (b : String) : Bool :=
  match a with
  | some s => asciiLower s == asciiLower b
  | none => false

/-- JS `Set.prototype.add`: append if absent (insertion order kept). -/
def addToSet (s : List String) (a : String) : List String :=
  if s.contains a then s else s ++ [a]

/-- JS `Set.prototype.delete`. -/
def delFromSet (s : List String) (a : String) : List String :=
  s.filter (fun x => !(x == a))

/-! ## Transaction records (the consumed `TransactionRecord` shape)

Only the fields the expansion/direction code reads are kept: the sent and
received token entries and the total USD volume.  `transactionHash`,
`blockTimestamp`, chain and method are never read by the embedded functions.
An absent `tokensSent` / `tokensReceived` array behaves exactly like an empty
one in every use (`x && x.length > 0` and `x?.some(...)` are both falsy), so
absence is modelled as `[]`. -/

structure TokenEntry where
  from_address : Option String := none
  to_address : Option String := none
  value_usd : ℚ := 0
deriving Repr, DecidableEq

structure Tx where
  tokensSent : List TokenEntry := []
  tokensReceived : List TokenEntry := []
  volumeUsd : ℚ := 0
deriving Repr, DecidableEq

/-! ## Graph nodes and links (Graph Builder output, expansion input) -/

/-- A node of the processed graph.  Main-wallet nodes are created by the
builder's first pass without `label`, `chain`, smart-contract/exchange flags
or a `connectedMainAddresses` set; those absent JS fields are `none` / `false`
here. -/
structure GNode where
  id : String
  address : String
  label : Option String := none
  usdNetflow : ℚ := 0
  volIn : ℚ := 0
  volOut : ℚ := 0
  chain : Option String := none
  isMain : Bool := false
  isSmartContract : Bool := false
  isExchange : Bool := false
  connectedMainAddresses : Option (List String) := none
deriving Repr, DecidableEq

/-- An aggregated link.  The JS code accepts either a node object or a bare id
in `source` / `target` and normalises to the id; the embedding carries the id
directly. -/
structure GLink where
  source : String
  target : String
  value : ℚ
deriving Repr, DecidableEq

/-- `addressMap.get a` over the node list (node ids are the map keys). -/
def findNode (ns : List GNode) (a : String) : Option GNode :=
  ns.find? (fun n => n.id == a)

/-! ## The expansion store (`useExpandedLinks`) -/

/-- The pair key `"{main}-{counterparty}"`. -/
def linkKey (mainNodeId counterpartyNodeId : String) : String :=
  mainNodeId ++ "-" ++ counterpartyNodeId

/-- The `expandedLinks` JS `Map`, as an insertion-ordered association list. -/
abbrev ExpandedMap : Type := List (String × List Tx)

def hasKey (m : ExpandedMap) (k : String) : Bool :=
  m.any (fun e => e.1 == k)

def getKey (m : ExpandedMap) (k : String) : Option (List Tx) :=
  (m.find? (fun e => e.1 == k)).map (fun e => e.2)

/-- JS `Map.prototype.set`: update in place, or append a new key at the end. -/
def setKey (m : ExpandedMap) (k : String) (v : List Tx) : ExpandedMap :=
  if hasKey m k then
    m.map (fun e => if e.1 == k then (k, v) else e)
  else m ++ [(k, v)]

/-- JS `Map.prototype.delete`. -/
def delKey (m : ExpandedMap) (k : String) : ExpandedMap :=
  m.filter (fun e => !(e.1 == k))

/-- The hook's state: the expansion map and the `loadingTransactions` set. -/
structure ExpState where
  expandedLinks : ExpandedMap
  loadingTransactions : List String

inductive ToggleResult where
  | collapsed
  | expanded (transactions : List Tx)
  | error (msg : String)
deriving Repr, DecidableEq

structure ToggleOutcome where
  state : ExpState
  result : ToggleResult
  /-- Whether `fetchTransactionsBetweenAddresses` was called during the
  toggle. -/
  fetchIssued : Bool

/-- `toggleLinkExpansion` (part_003 lines 10-58).  The `async` fetch is
embedded by passing the awaited outcome as `fetch`: `Except.ok` a resolved
response (`.data`, an absent field behaving as the empty list) and
`Except.error` a rejection.  The `finally` block removes the key from the
loading set on every fetch path. -/
def toggleLinkExpansion (st : ExpState) (mainNodeId counterpartyNodeId : String)
    (fetch : Except String (List Tx)) : ToggleOutcome :=
  let linkId := linkKey mainNodeId counterpartyNodeId
  if hasKey st.expandedLinks linkId then
    { state := { st with expandedLinks := delKey st.expandedLinks linkId },
      result := .collapsed,
      fetchIssued := false }
  else
    let loading := addToSet st.loadingTransactions linkId
    match fetch with
    | .ok txs =>
      if txs.length > 0 then
        { state := { expandedLinks := setKey st.expandedLinks linkId txs,
                     loadingTransactions := delFromSet loading linkId },
          result := .expanded txs,
          fetchIssued := true }
      else
        { state := { st with loadingTransactions := delFromSet loading linkId },
          result := .error "No transactions found",
          fetchIssued := true }
    | .error msg =>
        { state := { st with loadingTransactions := delFromSet loading linkId },
          result := .error ("Failed to load transactions: " ++ msg),
          fetchIssued := true }

/-! ## Direction inference (part_003 lines 97-164) -/

/-- The `isOutgoing` flag computed per transaction.  The received-token block
(lines 123-143) only ever assigns `isOutgoing = false` when the flag is
already false, so it never changes it and is kept as a comment; the fallback
(lines 146-164) runs exactly when neither `debugInfo.tokenSent?.isMainSender`
nor `debugInfo.tokenReceived?.isMainReceiver` is truthy. -/
def inferIsOutgoing (tx : Tx) (mainNodeId counterpartyNodeId : String) : Bool :=
  let outAfterSent :=
    match tx.tokensSent.head? with
    | some s => addrEq s.from_address mainNodeId && addrEq s.to_address counterpartyNodeId
    | none => false
  let sentIsMainSender :=
    match tx.tokensSent.head? with
    | some s => addrEq s.from_address mainNodeId
    | none => false
  let recvIsMainReceiver :=
    match tx.tokensReceived.head? with
    | some r => addrEq r.to_address mainNodeId
    | none => false
  if !sentIsMainSender && !recvIsMainReceiver then
    let hasSentToCounterparty := tx.tokensSent.any fun t =>
      addrEq t.from_address mainNodeId || addrEq t.to_address counterpartyNodeId
    let hasReceivedFromCounterparty := tx.tokensReceived.any fun t =>
      addrEq t.from_address counterpartyNodeId || addrEq t.to_address mainNodeId
    hasSentToCounterparty && !hasReceivedFromCounterparty
  else outAfterSent

/-- The signed edge value (part_003 line 178):
`isOutgoing ? -Math.abs(tx.volumeUsd) : Math.abs(tx.volumeUsd)`. -/
def txSignedValue (tx : Tx) (mainNodeId counterpartyNodeId : String) : ℚ :=
  if inferIsOutgoing tx mainNodeId counterpartyNodeId then -|tx.volumeUsd| else |tx.volumeUsd|

/-- A transaction link as pushed by the expansion loop (part_003 lines
175-185).  `direction` is the `isOutgoing` flag (`true` renders as
`'outgoing'`). -/
structure TxLink where
  source : String
  target : String
  value : ℚ
  direction : Bool
  transaction : Tx
  linkId : String
  transactionIndex : ℕ
  totalTransactions : ℕ
deriving Repr, DecidableEq

/-- A final link: an aggregated link kept verbatim, or a transaction link. -/
inductive FLink where
  | agg (l : GLink)
  | txl (t : TxLink)
deriving Repr, DecidableEq

/-- The transaction links substituted for one expanded pair
(`transactions.forEach((tx, index) => ... finalLinks.push(...))`). -/
def expandTxLinks (source target mainId cpId k : String) (txs : List Tx) : List FLink :=
  txs.enum.map fun p =>
    .txl { source := source, target := target,
           value := txSignedValue p.2 mainId cpId,
           direction := inferIsOutgoing p.2 mainId cpId,
           transaction := p.2, linkId := k,
           transactionIndex := p.1, totalTransactions := txs.length }

/-- `processLinksWithExpansions` (part_003 lines 61-205).  The
`processedExpandedLinks` JS `Set` is the second fold component. -/
def processLinksWithExpansions (originalLinks : List GLink) (addressMap : List GNode)
    (expandedLinks : ExpandedMap) : List FLink :=
  if expandedLinks.isEmpty then
    originalLinks.map .agg
  else
    (originalLinks.foldl (fun (st : List FLink × List String) link =>
      match findNode addressMap link.source, findNode addressMap link.target with
      | some sourceNode, some targetNode =>
        let mainNode := if sourceNode.isMain then sourceNode else targetNode
        let cpNode := if sourceNode.isMain then targetNode else sourceNode
        let k := linkKey mainNode.id cpNode.id
        if hasKey expandedLinks k && !(st.2.contains k) then
          let txs := (getKey expandedLinks k).getD []
          (st.1 ++ expandTxLinks link.source link.target mainNode.id cpNode.id k txs,
           st.2 ++ [k])
        else
          (st.1 ++ [.agg link], st.2)
      | _, _ => (st.1 ++ [.agg link], st.2)) ([], [])).1

/-- The pair key a final link represents: for a kept aggregated link, the key
the expansion loop would compute from the node map; for a transaction link,
its stored `linkId`. -/
def fpairKey (addressMap : List GNode) : FLink → Option String
  | .agg l =>
    match findNode addressMap l.source, findNode addressMap l.target with
    | some sn, some tn =>
      some (linkKey (if sn.isMain then sn else tn).id (if sn.isMain then tn else sn).id)
    | _, _ => none
  | .txl t => some t.linkId

/-- Whether the output keeps an aggregated link for pair `k`. -/
def hasAggForPair (addressMap : List GNode) (out : List FLink) (k : String) : Bool :=
  out.any fun f =>
    match f with
    | .agg l => fpairKey addressMap (.agg l) == some k
    | .txl _ => false

/-- Whether the output holds a transaction link for pair `k`. -/
def hasTxForPair (out : List FLink) (k : String) : Bool :=
  out.any fun f =>
    match f with
    | .agg _ => false
    | .txl t => t.linkId == k

/-! ## The Graph Builder (`getProcessedData`, part_002 lines 203-310)

The per-record fields reach `getProcessedData` as strings and are read
through `parseFloat`; the embedding carries the parsed rational directly.
The emoji constants and the minimum-volume floor live in the repository's
`constants.js`, which only the importing files show; they are carried in the
configuration record (the code's own comment fixes the floor at one dollar).
A node object is stored in `addressMap` under its own `id` at the same moment
it is pushed onto `nodes`, and later mutations go through the shared object,
so a single insertion-ordered node list serves as both the array and the
map. -/

structure CPRecord where
  interactingAddress : String
  usdNetflow : ℚ := 0
  volIn : ℚ := 0
  volOut : ℚ := 0
  interactingLabel : Option String := none
  chain : Option String := none
deriving Repr, DecidableEq

structure DataSet where
  mainAddress : String
  transactions : List CPRecord
deriving Repr, DecidableEq

inductive SizeMetric where
  | uniform
  | totalVolume
  | usdNetflow
  | volIn
  | volOut
deriving Repr, DecidableEq

/-- The filter state and the constants `getProcessedData` closes over.
`rangeMin` / `rangeMax` are `none` for the empty-string input. -/
structure BuilderConfig where
  deletedNodes : List String := []
  showSmartContracts : Bool := true
  showExchanges : Bool := true
  sizeMetric : SizeMetric := .uniform
  rangeMin : Option ℚ := none
  rangeMax : Option ℚ := none
  customLabels : List (String × String) := []
  smartContractEmoji : String := "📜"
  exchangeEmoji : String := "🏦"
  minTotalVolume : ℚ := 1
deriving Repr, DecidableEq

/-- The metric chosen for range filtering (part_002 lines 261-268). -/
def metricValue (m : SizeMetric) (t : CPRecord) : ℚ :=
  match m with
  | .uniform => 0
  | .totalVolume => t.volIn + t.volOut
  | .usdNetflow => t.usdNetflow
  | .volIn => t.volIn
  | .volOut => t.volOut

/-- Whether the second pass skips a record: the early `return`s of part_002
lines 231-275, in source order (deleted, all-zero, volume floor,
smart-contract/exchange visibility, numeric range). -/
def recordFiltered (cfg : BuilderConfig) (t : CPRecord) : Bool :=
  cfg.deletedNodes.contains t.interactingAddress
  || (t.usdNetflow == 0 && t.volIn == 0 && t.volOut == 0)
  || decide (|t.volIn| + |t.volOut| < cfg.minTotalVolume)
  || ((!cfg.showSmartContracts && labelIncludes t.interactingLabel cfg.smartContractEmoji)
      || (!cfg.showExchanges && labelIncludes t.interactingLabel cfg.exchangeEmoji))
  || (!(cfg.sizeMetric == .uniform)
      && ((match cfg.rangeMin with
           | some lo => decide (metricValue cfg.sizeMetric t < lo)
           | none => false)
          || (match cfg.rangeMax with
              | some hi => decide (hi < metricValue cfg.sizeMetric t)
              | none => false)))

/-- `customLabels.get(addr) || transaction.interactingLabel`. -/
def labelFor (cfg : BuilderConfig) (t : CPRecord) : Option String :=
  match (cfg.customLabels.find? (fun e => e.1 == t.interactingAddress)).map (fun e => e.2) with
  | some s => some s
  | none => t.interactingLabel

/-- The counterparty node created on first sight (part_002 lines 279-291). -/
def mkCounterpartyNode (cfg : BuilderConfig) (mainAddress : String) (t : CPRecord) : GNode :=
  { id := t.interactingAddress
    address := t.interactingAddress
    label := labelFor cfg t
    usdNetflow := t.usdNetflow
    volIn := t.volIn
    volOut := t.volOut
    chain := t.chain
    isMain := false
    isSmartContract := labelIncludes t.interactingLabel cfg.smartContractEmoji
    isExchange := labelIncludes t.interactingLabel cfg.exchangeEmoji
    connectedMainAddresses := some [mainAddress] }

/-- JS `node.connectedMainAddresses.add(a)`.  Accumulation only happens on
counterparty nodes, which always carry a set; the absent case keeps `none`
(unreachable in the builder). -/
def addConnected (s : Option (List String)) (a : String) : Option (List String) :=
  match s with
  | none => none
  | some l => some (addToSet l a)

/-- One record of the second pass (part_002 lines 230-306): filter chain,
node creation / accumulation, then one appended aggregated link. -/
def counterpartyStep (cfg : BuilderConfig) (mainAddress : String)
    (st : List GNode × List GLink) (t : CPRecord) : List GNode × List GLink :=
  if recordFiltered cfg t then st
  else
    let ns :=
      match findNode st.1 t.interactingAddress with
      | none => st.1 ++ [mkCounterpartyNode cfg mainAddress t]
      | some node =>
        if node.isMain then st.1
        else st.1.map fun m =>
          if m.id == t.interactingAddress then
            { m with usdNetflow := m.usdNetflow + t.usdNetflow
                     volIn := m.volIn + t.volIn
                     volOut := m.volOut + t.volOut
                     connectedMainAddresses := addConnected m.connectedMainAddresses mainAddress }
          else m
    (ns, st.2 ++ [{ source := mainAddress, target := t.interactingAddress,
                    value := t.usdNetflow }])

/-- One dataset of the first pass (part_002 lines 209-226): create the main
node on first sight, else promote the existing entry. -/
def mainPassStep (ns : List GNode) (ds : DataSet) : List GNode :=
  match findNode ns ds.mainAddress with
  | none => ns ++ [{ id := ds.mainAddress, address := ds.mainAddress,
                     usdNetflow := 0, volIn := 0, volOut := 0, isMain := true }]
  | some _ => ns.map fun n => if n.id == ds.mainAddress then { n with isMain := true } else n

/-- The first pass: one main node per dataset. -/
def mainPass (data : List DataSet) : List GNode :=
  data.foldl mainPassStep []

/-- `getProcessedData`: the two passes, returning `(nodes, links)` (the
`addressMap` is the node list itself, looked up by id). -/
def getProcessedData (cfg : BuilderConfig) (data : List DataSet) : List GNode × List GLink :=
  data.foldl (fun st ds => ds.transactions.foldl (counterpartyStep cfg ds.mainAddress) st)
    (mainPass data, [])

/-- The (main, counterparty) pair of each aggregated link, in order. -/
def linkPairs (ls : List GLink) : List (String × String) :=
  ls.map fun l => (l.source, l.target)

/-- The (main wallet, record address) pair of every input record, in the
builder's iteration order. -/
def inputPairs (data : List DataSet) : List (String × String) :=
  data.flatMap fun ds => ds.transactions.map fun t => (ds.mainAddress, t.interactingAddress)

/-- The node ids, in insertion order. -/
def nodeIds (ns : List GNode) : List String :=
  ns.map GNode.id

/-! ## A model of the JavaScript number for the layout code

A finite value is an exact rational; the two infinities and NaN are explicit
constructors.  Rounding is ignored, which is exact for every arithmetic step
a theorem below evaluates (differences of equal values, products and sums of
small integers, division of a nonzero value by zero, square root of zero and
of perfect squares — all exact in IEEE-754 double arithmetic).  Signed zeros
are not distinguished; no embedded code path below produces a negative zero
whose sign is then observed. -/

inductive JsNum where
  | fin (q : ℚ)
  | inf (pos : Bool)
  | nan
deriving Repr, DecidableEq

namespace JsNum

def neg : JsNum → JsNum
  | fin q => fin (-q)
  | inf p => inf (!p)
  | nan => nan

def add : JsNum → JsNum → JsNum
  | nan, _ => nan
  | _, nan => nan
  | fin a, fin b => fin (a + b)
  | fin _, inf p => inf p
  | inf p, fin _ => inf p
  | inf p, inf q => if p == q then inf p else nan

def sub (a b : JsNum) : JsNum := add a (neg b)

def mul : JsNum → JsNum → JsNum
  | nan, _ => nan
  | _, nan => nan
  | fin a, fin b => fin (a * b)
  | fin a, inf p => if a == 0 then nan else inf (p == decide (0 < a))
  | inf p, fin a => if a == 0 then nan else inf (p == decide (0 < a))
  | inf p, inf q => inf (p == q)

def div : JsNum → JsNum → JsNum
  | nan, _ => nan
  | _, nan => nan
  | fin a, fin b =>
      if b == 0 then (if a == 0 then nan else inf (decide (0 < a)))
      else fin (a / b)
  | fin _, inf _ => fin 0
  | inf p, fin a => inf (p == decide (0 ≤ a))
  | inf _, inf _ => nan

/-- `Math.sqrt`.  Exact on zero, infinities, NaN, negatives and perfect
squares; on other positive rationals the finite approximation below stands in
for the rounded IEEE result (no theorem below evaluates such a case). -/
def sqrt : JsNum → JsNum
  | nan => nan
  | inf p => if p then inf true else nan
  | fin q => if q < 0 then nan
             else fin ((Nat.sqrt q.num.toNat : ℚ) / (Nat.sqrt q.den : ℚ))

def abs : JsNum → JsNum
  | nan => nan
  | inf _ => inf true
  | fin q => fin |q|

/-- JS `<`: any comparison with NaN is false. -/
def lt : JsNum → JsNum → Bool
  | nan, _ => false
  | _, nan => false
  | fin a, fin b => decide (a < b)
  | fin _, inf p => p
  | inf p, fin _ => !p
  | inf p, inf q => !p && q

/-- JS `>`. -/
def gt (a b : JsNum) : Bool := lt b a

end JsNum

/-! ## Simulation nodes, the custom forces, and the drag-end handler
(part_000, the D3 visualization component) -/

/-- A d3 simulation node: position, velocity, optional pinned coordinates
and the fields the component adds.  Fields a node object never received are
`none` / `false`. -/
structure PNode where
  id : String
  isMain : Bool := false
  x : JsNum := .fin 0
  y : JsNum := .fin 0
  vx : JsNum := .fin 0
  vy : JsNum := .fin 0
  fx : Option JsNum := none
  fy : Option JsNum := none
  isDragging : Bool := false
  connectedMainAddresses : Option (List String) := none
deriving Repr, DecidableEq

/-- The `pendulumMaintenance` force's update of one node (part_000 lines
327-354).  `idealDistance` is `PHYSICS.LINK_DISTANCE.MAIN_TO_COUNTERPARTY`,
`tolerance` is `PHYSICS.FORCES.PENDULUM_MAINTENANCE_TOLERANCE` and
`pendulumAlpha` is `PHYSICS.FORCES.PENDULUM_MAINTENANCE_ALPHA`; the constants
live in the repository's `constants.js` and are carried as parameters.
`Array.from(node.connectedMainAddresses || [])[0]` is the head of the set,
and a missing main node skips the node, as in the source. -/
def pendulumStep (idealDistance tolerance pendulumAlpha : ℚ) (lockedNodes : List String)
    (alpha : JsNum) (simulationNodes : List PNode) (node : PNode) : PNode :=
  if !node.isMain && !(lockedNodes.contains node.id) then
    match (node.connectedMainAddresses.getD []).head? with
    | none => node
    | some connectedMainAddress =>
      match simulationNodes.find? (fun n => n.id == connectedMainAddress) with
      | none => node
      | some mainNode =>
        let dx := node.x.sub mainNode.x
        let dy := node.y.sub mainNode.y
        let distance := ((dx.mul dx).add (dy.mul dy)).sqrt
        if ((distance.sub (.fin idealDistance)).abs).gt (.fin tolerance) then
          let forceStrength :=
            (((distance.sub (.fin idealDistance)).div distance).mul alpha).mul
              (.fin pendulumAlpha)
          { node with vx := node.vx.sub (dx.mul forceStrength),
                      vy := node.vy.sub (dy.mul forceStrength) }
        else node
  else node

/-- The whole `pendulumMaintenance` pass.  The source's `forEach` mutates
only `vx` / `vy` and reads only `x` / `y` and ids of other nodes, so the
sequential loop equals this independent per-node map. -/
def pendulumMaintenance (idealDistance tolerance pendulumAlpha : ℚ)
    (lockedNodes : List String) (alpha : JsNum) (simulationNodes : List PNode) : List PNode :=
  simulationNodes.map (pendulumStep idealDistance tolerance pendulumAlpha lockedNodes alpha
    simulationNodes)

/-- The `mainNodeRepulsion` force's update of one node (part_000 lines
303-326).  `radiusOf` stands for `calculateRadius(mainNode, sizeMetric,
scaleFactor)` (defined in the repository's `calculations.js`);
`repulsionMultiplier` and `repulsionStrength` are
`PHYSICS.FORCES.MAIN_NODE_REPULSION_MULTIPLIER` / `..._STRENGTH`. -/
def mainNodeRepulsionStep (radiusOf : PNode → ℚ) (repulsionMultiplier repulsionStrength : ℚ)
    (alpha : JsNum) (simulationNodes : List PNode) (node : PNode) : PNode :=
  if !node.isMain then
    (simulationNodes.filter (fun n => n.isMain)).foldl (fun nd mainNode =>
      let dx := nd.x.sub mainNode.x
      let dy := nd.y.sub mainNode.y
      let distance := ((dx.mul dx).add (dy.mul dy)).sqrt
      let minDistance : JsNum := .fin (radiusOf mainNode * repulsionMultiplier)
      if distance.lt minDistance then
        let force :=
          (((minDistance.sub distance).div distance).mul alpha).mul (.fin repulsionStrength)
        { nd with vx := nd.vx.add (dx.mul force), vy := nd.vy.add (dy.mul force) }
      else nd) node
  else node

/-- What `dragended` (part_000 lines 995-1016) does to the dragged node and
whether it invokes `onToggleNodeLock(d.id, true)`.  The deferred
`isDragging = false` reset runs in a `setTimeout` after the handler and is
not part of its synchronous effect. -/
structure DragEndResult where
  node : PNode
  lockToggled : Bool
deriving Repr, DecidableEq

def dragended (d : PNode) : DragEndResult :=
  { node := { d with fx := some d.x, fy := some d.y },
    lockToggled := !d.isMain && d.isDragging }

/-- The locked set after `dragended`, with `onToggleNodeLock(d.id, true)`
performing `setLockedNodes(prev => new Set(prev).add(nodeId))` (part_002
lines 385-395). -/
def lockedAfterDragEnd (lockedNodes : List String) (d : PNode) : List String :=
  if (dragended d).lockToggled then addToSet lockedNodes d.id else lockedNodes

/-! ## Concrete inputs used by the closed theorems and witnesses below -/

/-- A two-node address map: main wallet `A`, counterparty `B`. -/
def amAB : List GNode :=
  [{ id := "A", address := "A", isMain := true },
   { id := "B", address := "B", connectedMainAddresses := some ["A"] }]

def aggAB : GLink := { source := "A", target := "B", value := 5 }

def txTen : Tx := { volumeUsd := 10 }

/-- A main node and a counterparty at exactly the same coordinates. -/
def mainAtOrigin : PNode := { id := "M", isMain := true, x := .fin 100, y := .fin 100 }

def cpCoincident : PNode :=
  { id := "C", x := .fin 100, y := .fin 100, connectedMainAddresses := some ["M"] }

/-- A locked counterparty sitting 1000 units from its main node. -/
def mainForLocked : PNode := { id := "M", isMain := true }

def cpLockedFar : PNode :=
  { id := "C", x := .fin 1000, y := .fin 0, vx := .fin 2, vy := .fin 3,
    connectedMainAddresses := some ["M"] }

/-- One dataset whose record list holds the same counterparty record twice. -/
def recordB : CPRecord := { interactingAddress := "B", usdNetflow := 5, volIn := 5 }

def dataDupRecord : List DataSet := [{ mainAddress := "A", transactions := [recordB, recordB] }]

/-- Two datasets with distinct pairs (for the amended-claim witness). -/
def recordC : CPRecord := { interactingAddress := "C", usdNetflow := -3, volOut := 3 }

def dataDistinctPairs : List DataSet :=
  [{ mainAddress := "A", transactions := [recordB] },
   { mainAddress := "B", transactions := [recordC] }]

/-- A dataset whose only record points back at the main wallet itself. -/
def dataSelfRecord : List DataSet :=
  [{ mainAddress := "A", transactions := [{ interactingAddress := "A", usdNetflow := 7, volIn := 7 }] }]

/-- The main node the builder produces for `dataSelfRecord`. -/
def selfMainNode : GNode :=
  { id := "A", address := "A", usdNetflow := 0, volIn := 0, volOut := 0, isMain := true }

/-- A sent-token entry `main → counterparty` in mixed case. -/
def sentEntryW : TokenEntry := { from_address := some "0xAa", to_address := some "0xbB" }

def txSentW : Tx := { tokensSent := [sentEntryW], volumeUsd := 7 }

/-! ## Association-list lemmas shared by the expansion-store theorems -/

theorem find?_eq_none_of_hasKey_false {m : ExpandedMap} {k : String}
    (h : hasKey m k = false) : m.find? (fun e => e.1 == k) = none := by
  rw [List.find?_eq_none]
  intro x hx
  have hall := List.any_eq_false.mp h x hx
  simpa using hall

theorem setKey_of_hasKey_false {m : ExpandedMap} {k : String} (h : hasKey m k = false)
    (v : List Tx) : setKey m k v = m ++ [(k, v)] := by
  simp [setKey, h]

theorem getKey_setKey_of_hasKey_false {m : ExpandedMap} {k : String}
    (h : hasKey m k = false) (v : List Tx) : getKey (setKey m k v) k = some v := by
  rw [setKey_of_hasKey_false h, getKey, List.find?_append,
    find?_eq_none_of_hasKey_false h]
  simp

theorem hasKey_append_self (m : ExpandedMap) (k : String) (v : List Tx) :
    hasKey (m ++ [(k, v)]) k = true := by
  simp [hasKey]

theorem delKey_append_self {m : ExpandedMap} {k : String} (h : hasKey m k = false)
    (v : List Tx) : delKey (m ++ [(k, v)]) k = m := by
  rw [delKey, List.filter_append]
  have h1 : m.filter (fun e => !(e.1 == k)) = m := by
    rw [List.filter_eq_self]
    intro a ha
    have hall := List.any_eq_false.mp h a ha
    simpa using hall
  simp [h1]

theorem contains_append_singleton (l : List String) (a : String) :
    (l ++ [a]).contains a = true := by
  simp [List.contains, List.elem_eq_true_of_mem (by simp : a ∈ l ++ [a])]

theorem toggle_collapses_of_hasKey {st : ExpState} {mainNodeId counterpartyNodeId : String}
    (fetch : Except String (List Tx))
    (h : hasKey st.expandedLinks (linkKey mainNodeId counterpartyNodeId) = true) :
    (toggleLinkExpansion st mainNodeId counterpartyNodeId fetch).state.expandedLinks
      = delKey st.expandedLinks (linkKey mainNodeId counterpartyNodeId) := by
  simp [toggleLinkExpansion, h]

theorem toggle_expands_of_hasKey_false {st : ExpState}
    {mainNodeId counterpartyNodeId : String} {txs : List Tx}
    (h : hasKey st.expandedLinks (linkKey mainNodeId counterpartyNodeId) = false)
    (hlen : 0 < txs.length) :
    (toggleLinkExpansion st mainNodeId counterpartyNodeId (.ok txs)).state.expandedLinks
      = st.expandedLinks ++ [(linkKey mainNodeId counterpartyNodeId, txs)] := by
  simp [toggleLinkExpansion, h, hlen, setKey_of_hasKey_false h]

/-! ## Graph Builder lemmas: link shape, node uniqueness, main-node frames -/

/-- The links component of one second-pass step: one appended aggregated link
per surviving record, independent of the node bookkeeping. -/
theorem counterpartyStep_links (cfg : BuilderConfig) (mainAddress : String)
    (st : List GNode × List GLink) (t : CPRecord) :
    (counterpartyStep cfg mainAddress st t).2
      = if recordFiltered cfg t then st.2
        else st.2 ++ [{ source := mainAddress, target := t.interactingAddress,
                        value := t.usdNetflow }] := by
  by_cases hf : recordFiltered cfg t = true <;> simp [counterpartyStep, hf]

theorem linkPairs_append (ls : List GLink) (l : GLink) :
    linkPairs (ls ++ [l]) = linkPairs ls ++ [(l.source, l.target)] := by
  simp [linkPairs]

/-- Over one dataset, the link pairs grow by a sublist of the dataset's
record pairs. -/
theorem linkPairs_inner_foldl (cfg : BuilderConfig) (mainAddress : String)
    (ts : List CPRecord) :
    ∀ st : List GNode × List GLink,
      List.Sublist (linkPairs (ts.foldl (counterpartyStep cfg mainAddress) st).2)
        (linkPairs st.2 ++ ts.map fun t => (mainAddress, t.interactingAddress)) := by
  induction ts with
  | nil => intro st; simp
  | cons t rest ih =>
    intro st
    simp only [List.foldl_cons, List.map_cons]
    by_cases hf : recordFiltered cfg t = true
    · have h2 : (counterpartyStep cfg mainAddress st t).2 = st.2 := by
        rw [counterpartyStep_links, if_pos hf]
      refine List.Sublist.trans (ih (counterpartyStep cfg mainAddress st t)) ?_
      rw [h2]
      exact List.Sublist.append_left (List.sublist_cons_self _ _) _
    · have h2 : (counterpartyStep cfg mainAddress st t).2
          = st.2 ++ [{ source := mainAddress, target := t.interactingAddress,
                       value := t.usdNetflow }] := by
        rw [counterpartyStep_links, if_neg hf]
      have h3 := ih (counterpartyStep cfg mainAddress st t)
      rw [h2, linkPairs_append] at h3
      simpa using h3

/-- Over the whole second pass, the link pairs form a sublist of the input
record pairs. -/
theorem linkPairs_outer_foldl (cfg : BuilderConfig) (data : List DataSet) :
    ∀ st : List GNode × List GLink,
      List.Sublist
        (linkPairs (data.foldl
          (fun st ds => ds.transactions.foldl (counterpartyStep cfg ds.mainAddress) st) st).2)
        (linkPairs st.2 ++ inputPairs data) := by
  induction data with
  | nil => intro st; simp [inputPairs]
  | cons ds rest ih =>
    intro st
    simp only [List.foldl_cons]
    refine List.Sublist.trans (ih _) ?_
    have h1 := linkPairs_inner_foldl cfg ds.mainAddress ds.transactions st
    have h2 := List.Sublist.append h1 (List.Sublist.refl (inputPairs rest))
    have h3 : (linkPairs st.2 ++ ds.transactions.map
        (fun t => (ds.mainAddress, t.interactingAddress))) ++ inputPairs rest
        = linkPairs st.2 ++ inputPairs (ds :: rest) := by
      simp [inputPairs, List.flatMap_cons, List.append_assoc]
    rw [h3] at h2
    exact h2

theorem getProcessedData_linkPairs_sublist (cfg : BuilderConfig) (data : List DataSet) :
    List.Sublist (linkPairs (getProcessedData cfg data).2) (inputPairs data) := by
  have h := linkPairs_outer_foldl cfg data (mainPass data, [])
  simpa [linkPairs] using h

theorem not_mem_nodeIds_of_findNode_none {ns : List GNode} {a : String}
    (h : findNode ns a = none) : a ∉ nodeIds ns := by
  intro hmem
  rw [nodeIds, List.mem_map] at hmem
  obtain ⟨n, hn, hid⟩ := hmem
  have hno := List.find?_eq_none.mp h n hn
  simp [hid] at hno

theorem nodeIds_map_eq (ns : List GNode) (g : GNode → GNode)
    (h : ∀ n, (g n).id = n.id) : nodeIds (ns.map g) = nodeIds ns := by
  rw [nodeIds, nodeIds, List.map_map]
  exact List.map_congr_left fun n _ => h n

theorem nodeIds_append_nodup {ns : List GNode} {n : GNode}
    (h1 : (nodeIds ns).Nodup) (h2 : n.id ∉ nodeIds ns) :
    (nodeIds (ns ++ [n])).Nodup := by
  rw [nodeIds, List.map_append]
  simp only [List.map_cons, List.map_nil]
  rw [List.nodup_append]
  exact ⟨h1, List.nodup_singleton _, by simpa [nodeIds] using h2⟩

/-- The first-pass invariant: distinct node ids, and every node carries zero
flow fields and no `connectedMainAddresses` set. -/
theorem mainPass_foldl_inv (data : List DataSet) :
    ∀ ns : List GNode,
      (nodeIds ns).Nodup →
      (∀ n ∈ ns, n.usdNetflow = 0 ∧ n.volIn = 0 ∧ n.volOut = 0 ∧
        n.connectedMainAddresses = none) →
      (nodeIds (data.foldl mainPassStep ns)).Nodup ∧
      (∀ n ∈ data.foldl mainPassStep ns, n.usdNetflow = 0 ∧ n.volIn = 0 ∧ n.volOut = 0 ∧
        n.connectedMainAddresses = none) := by
  induction data with
  | nil => intro ns h1 h2; exact ⟨h1, h2⟩
  | cons ds rest ih =>
    intro ns h1 h2
    simp only [List.foldl_cons]
    apply ih
    · unfold mainPassStep
      cases hf : findNode ns ds.mainAddress with
      | none => exact nodeIds_append_nodup h1 (not_mem_nodeIds_of_findNode_none hf)
      | some n =>
        rw [nodeIds_map_eq]
        · exact h1
        · intro m
          by_cases hm : (m.id == ds.mainAddress) = true <;> simp [hm]
    · unfold mainPassStep
      cases hf : findNode ns ds.mainAddress with
      | none =>
        intro n hn
        rcases List.mem_append.mp hn with hmem | hmem
        · exact h2 n hmem
        · rcases List.mem_singleton.mp hmem with rfl
          exact ⟨rfl, rfl, rfl, rfl⟩
      | some m0 =>
        intro n hn
        rw [List.mem_map] at hn
        obtain ⟨m, hm, rfl⟩ := hn
        by_cases hid : (m.id == ds.mainAddress) = true <;> simp [hid] <;> exact h2 m hm

/-- The second-pass invariant: distinct node ids are preserved, and every
main node keeps zero flow fields and no `connectedMainAddresses` set (the
accumulation branch is guarded by `!node.isMain`). -/
theorem counterpartyStep_nodes_inv (cfg : BuilderConfig) (mainAddress : String)
    (st : List GNode × List GLink) (t : CPRecord)
    (h1 : (nodeIds st.1).Nodup)
    (h2 : ∀ n ∈ st.1, n.isMain = true → n.usdNetflow = 0 ∧ n.volIn = 0 ∧ n.volOut = 0 ∧
      n.connectedMainAddresses = none) :
    (nodeIds (counterpartyStep cfg mainAddress st t).1).Nodup ∧
    (∀ n ∈ (counterpartyStep cfg mainAddress st t).1, n.isMain = true →
      n.usdNetflow = 0 ∧ n.volIn = 0 ∧ n.volOut = 0 ∧
      n.connectedMainAddresses = none) := by
  by_cases hf : recordFiltered cfg t = true
  · simp only [counterpartyStep, hf, if_true]
    exact ⟨h1, h2⟩
  · simp only [counterpartyStep, hf, if_false, Bool.false_eq_true]
    cases hfind : findNode st.1 t.interactingAddress with
    | none =>
      constructor
      · exact nodeIds_append_nodup h1 (not_mem_nodeIds_of_findNode_none hfind)
      · intro n hn hmain
        rcases List.mem_append.mp hn with hmem | hmem
        · exact h2 n hmem hmain
        · rcases List.mem_singleton.mp hmem with rfl
          simp [mkCounterpartyNode] at hmain
    | some n0 =>
      by_cases hmain0 : n0.isMain = true
      · simp only [hmain0, if_true]
        exact ⟨h1, h2⟩
      · have hmain0f : n0.isMain = false := by
          cases hb : n0.isMain
          · rfl
          · exact absurd hb hmain0
        simp only [hmain0f, Bool.false_eq_true, if_false]
        have hfind2 : st.1.find? (fun n => n.id == t.interactingAddress) = some n0 := hfind
        have hid0 : (n0.id == t.interactingAddress) = true := by
          have h := List.find?_some (p := fun n : GNode => n.id == t.interactingAddress) hfind2
          simpa using h
        have hmem0 : n0 ∈ st.1 :=
          List.mem_of_find?_eq_some (p := fun n : GNode => n.id == t.interactingAddress) hfind2
        constructor
        · rw [nodeIds_map_eq]
          · exact h1
          · intro m
            by_cases hm : (m.id == t.interactingAddress) = true <;> simp [hm]
        · intro n hn hmain
          rw [List.mem_map] at hn
          obtain ⟨m, hm, rfl⟩ := hn
          by_cases hid : (m.id == t.interactingAddress) = true
          · have hmeq : m = n0 := by
              apply List.inj_on_of_nodup_map h1 hm hmem0
              rw [beq_iff_eq] at hid hid0
              rw [hid, hid0]
            subst hmeq
            rw [if_pos hid] at hmain
            simp at hmain
            rw [hmain] at hmain0f
            simp at hmain0f
          · rw [if_neg hid] at hmain ⊢
            exact h2 m hm hmain

/-- The node invariant of the whole second pass. -/
theorem builder_foldl_nodes_inv (cfg : BuilderConfig) (data : List DataSet) :
    ∀ st : List GNode × List GLink,
      (nodeIds st.1).Nodup →
      (∀ n ∈ st.1, n.isMain = true → n.usdNetflow = 0 ∧ n.volIn = 0 ∧ n.volOut = 0 ∧
        n.connectedMainAddresses = none) →
      (nodeIds (data.foldl
        (fun st ds => ds.transactions.foldl (counterpartyStep cfg ds.mainAddress) st) st).1).Nodup ∧
      (∀ n ∈ (data.foldl
          (fun st ds => ds.transactions.foldl (counterpartyStep cfg ds.mainAddress) st) st).1,
        n.isMain = true → n.usdNetflow = 0 ∧ n.volIn = 0 ∧ n.volOut = 0 ∧
        n.connectedMainAddresses = none) := by
  have hinner : ∀ (mainAddress : String) (ts : List CPRecord) (st : List GNode × List GLink),
      (nodeIds st.1).Nodup →
      (∀ n ∈ st.1, n.isMain = true → n.usdNetflow = 0 ∧ n.volIn = 0 ∧ n.volOut = 0 ∧
        n.connectedMainAddresses = none) →
      (nodeIds (ts.foldl (counterpartyStep cfg mainAddress) st).1).Nodup ∧
      (∀ n ∈ (ts.foldl (counterpartyStep cfg mainAddress) st).1, n.isMain = true →
        n.usdNetflow = 0 ∧ n.volIn = 0 ∧ n.volOut = 0 ∧
        n.connectedMainAddresses = none) := by
    intro mainAddress ts
    induction ts with
    | nil => intro st h1 h2; exact ⟨h1, h2⟩
    | cons t rest ih =>
      intro st h1 h2
      simp only [List.foldl_cons]
      obtain ⟨h1s, h2s⟩ := counterpartyStep_nodes_inv cfg mainAddress st t h1 h2
      exact ih _ h1s h2s
  induction data with
  | nil => intro st h1 h2; exact ⟨h1, h2⟩
  | cons ds rest ih =>
    intro st h1 h2
    simp only [List.foldl_cons]
    obtain ⟨h1s, h2s⟩ := hinner ds.mainAddress ds.transactions st h1 h2
    exact ih _ h1s h2s

/-- The node invariant of `getProcessedData` itself. -/
theorem getProcessedData_nodes_inv (cfg : BuilderConfig) (data : List DataSet) :
    (nodeIds (getProcessedData cfg data).1).Nodup ∧
    (∀ n ∈ (getProcessedData cfg data).1, n.isMain = true →
      n.usdNetflow = 0 ∧ n.volIn = 0 ∧ n.volOut = 0 ∧
      n.connectedMainAddresses = none) := by
  obtain ⟨hp1, hp2⟩ := mainPass_foldl_inv data [] (by simp [nodeIds]) (by simp)
  exact builder_foldl_nodes_inv cfg data (mainPass data, [])
    (by simpa [mainPass] using hp1)
    (fun n hn _ => hp2 n (by simpa [mainPass] using hn))

/-! ## The claims -/

/-- C1.  The claim says `processLinksWithExpansions` never leaves an
aggregated link and transaction links for the same pair in its output, even
when the pair's aggregated link appears more than once in the input.  The
code violates this: the first occurrence of an expanded pair is substituted
and the pair marked processed, but every later occurrence fails the
`!processedExpandedLinks.has(linkId)` test and falls into the `else` branch,
which pushes the original aggregated link — so both representations coexist.
This theorem evaluates the code at the failing input: the pair `A-B` is
expanded and its aggregated link appears twice, and the output holds a
transaction link and an aggregated link for `A-B` simultaneously. -/
theorem processLinks_duplicate_pair_keeps_both :
    hasTxForPair (processLinksWithExpansions [aggAB, aggAB] amAB [("A-B", [txTen])]) "A-B"
      = true ∧
    hasAggForPair amAB (processLinksWithExpansions [aggAB, aggAB] amAB [("A-B", [txTen])]) "A-B"
      = true := by
  decide

/-- C2.  `toggleLinkExpansion`: an expanded pair is collapsed (its entry
dropped); an absent pair with a successful non-empty fetch is stored under
the pair key and reported expanded; a successful empty fetch or a failed
fetch reports an error and leaves the expansion map unchanged. -/
theorem toggleLinkExpansion_spec (st : ExpState) (mainNodeId counterpartyNodeId : String)
    (fetch : Except String (List Tx)) :
    (hasKey st.expandedLinks (linkKey mainNodeId counterpartyNodeId) = true →
       (toggleLinkExpansion st mainNodeId counterpartyNodeId fetch).result = .collapsed ∧
       (toggleLinkExpansion st mainNodeId counterpartyNodeId fetch).state.expandedLinks
         = delKey st.expandedLinks (linkKey mainNodeId counterpartyNodeId)) ∧
    (hasKey st.expandedLinks (linkKey mainNodeId counterpartyNodeId) = false →
      (∀ txs, fetch = .ok txs → txs ≠ [] →
         (toggleLinkExpansion st mainNodeId counterpartyNodeId fetch).result = .expanded txs ∧
         getKey (toggleLinkExpansion st mainNodeId counterpartyNodeId fetch).state.expandedLinks
           (linkKey mainNodeId counterpartyNodeId) = some txs) ∧
      (fetch = .ok [] →
         (∃ msg, (toggleLinkExpansion st mainNodeId counterpartyNodeId fetch).result
            = .error msg) ∧
         (toggleLinkExpansion st mainNodeId counterpartyNodeId fetch).state.expandedLinks
           = st.expandedLinks) ∧
      (∀ msg, fetch = .error msg →
         (∃ m2, (toggleLinkExpansion st mainNodeId counterpartyNodeId fetch).result
            = .error m2) ∧
         (toggleLinkExpansion st mainNodeId counterpartyNodeId fetch).state.expandedLinks
           = st.expandedLinks)) := by
  constructor
  · intro h
    simp [toggleLinkExpansion, h]
  · intro h
    refine ⟨?_, ?_, ?_⟩
    · intro txs hf htxs
      subst hf
      have hlen : 0 < txs.length := List.length_pos.mpr htxs
      simp [toggleLinkExpansion, h, hlen, getKey_setKey_of_hasKey_false h]
    · intro hf
      subst hf
      simp [toggleLinkExpansion, h]
    · intro msg hf
      subst hf
      simp [toggleLinkExpansion, h]

/-- C3.  A transaction whose only sent-token entry runs from the main node to
the counterparty (case-insensitively) classifies as outgoing with signed
value `-|volumeUsd|`; and every transaction classified incoming carries
`+|volumeUsd|`. -/
theorem direction_outgoing_sent_entry (mainNodeId counterpartyNodeId : String) (tx : Tx)
    (e : TokenEntry)
    (hsent : tx.tokensSent = [e])
    (hfrom : addrEq e.from_address mainNodeId = true)
    (hto : addrEq e.to_address counterpartyNodeId = true) :
    (inferIsOutgoing tx mainNodeId counterpartyNodeId = true ∧
       txSignedValue tx mainNodeId counterpartyNodeId = -|tx.volumeUsd|) ∧
    (∀ (m c : String) (tx2 : Tx), inferIsOutgoing tx2 m c = false →
       txSignedValue tx2 m c = |tx2.volumeUsd|) := by
  constructor
  · have hout : inferIsOutgoing tx mainNodeId counterpartyNodeId = true := by
      unfold inferIsOutgoing
      rw [hsent]
      simp [hfrom, hto]
    exact ⟨hout, by rw [txSignedValue, hout]; simp⟩
  · intro m c tx2 h
    rw [txSignedValue, h]
    simp

theorem direction_outgoing_sent_entry_witness :
    inferIsOutgoing txSentW "0xAA" "0xBB" = true ∧
    txSignedValue txSentW "0xAA" "0xBB" = -|txSentW.volumeUsd| :=
  (direction_outgoing_sent_entry "0xAA" "0xBB" txSentW sentEntryW rfl (by decide)
    (by decide)).1

/-- C4.  The claim says a second toggle on a pair whose fetch is pending
never issues another fetch.  The code checks only `expandedLinks` before
fetching and never consults `loadingTransactions` (nor does the link click
handler call `isLinkLoading`), so a toggle on a pending, not-yet-expanded
pair issues a duplicate request.  This theorem evaluates the code at the
failing input: the key `A-B` is in the loading set, absent from the expansion
map, and the toggle still issues a fetch. -/
theorem toggle_pending_pair_issues_fetch :
    (["A-B"] : List String).contains (linkKey "A" "B") = true ∧
    (toggleLinkExpansion { expandedLinks := [], loadingTransactions := ["A-B"] } "A" "B"
      (.ok [txTen])).fetchIssued = true := by
  decide

/-- C5 counterexample.  The claim says the Graph Builder output has exactly
one node per unique address and at most one aggregated link per (main,
counterparty) pair for every input.  The second pass appends one link per
surviving record without deduplication, so an input in which the same
counterparty record occurs twice under one main wallet produces two links
for the pair (A, B), refuting the conjunction at this concrete input. -/
theorem getProcessedData_duplicate_record_refutes :
    ¬ ((nodeIds (getProcessedData {} dataDupRecord).1).Nodup ∧
       (linkPairs (getProcessedData {} dataDupRecord).2).Nodup) := by
  have hf : recordFiltered {} recordB = false := by
    norm_num [recordFiltered, recordB]
  have hlinks : (getProcessedData {} dataDupRecord).2
      = [{ source := "A", target := "B", value := 5 },
         { source := "A", target := "B", value := 5 }] := by
    simp [getProcessedData, dataDupRecord, counterpartyStep_links, hf]
    norm_num [recordB]
  intro h
  rw [hlinks] at h
  simp [linkPairs] at h

/-- C5 as amended.  The Graph Builder always emits exactly one node per
unique address (node ids are pairwise distinct); it emits one aggregated
link per surviving input record, so the links are at most one per (main,
counterparty) pair whenever each pair occurs at most once among the input
records. -/
theorem getProcessedData_unique_nodes_links (cfg : BuilderConfig) (data : List DataSet)
    (h : (inputPairs data).Nodup) :
    (nodeIds (getProcessedData cfg data).1).Nodup ∧
    (linkPairs (getProcessedData cfg data).2).Nodup :=
  ⟨(getProcessedData_nodes_inv cfg data).1,
   h.sublist (getProcessedData_linkPairs_sublist cfg data)⟩

theorem getProcessedData_unique_nodes_links_witness :
    (nodeIds (getProcessedData {} dataDistinctPairs).1).Nodup ∧
    (linkPairs (getProcessedData {} dataDistinctPairs).2).Nodup :=
  getProcessedData_unique_nodes_links {} dataDistinctPairs (by decide)

/-- C6.  Expanding a pair that is not currently expanded (successful
non-empty fetch) and then collapsing it restores the expansion map exactly,
so projecting the unchanged aggregated link set returns the original
aggregated link set. -/
theorem expand_collapse_project_id (originalLinks : List GLink) (addressMap : List GNode)
    (mainNodeId counterpartyNodeId : String) (m0 : ExpandedMap) (l0 : List String)
    (txs : List Tx)
    (hp : hasKey m0 (linkKey mainNodeId counterpartyNodeId) = false)
    (htxs : txs ≠ [])
    (horig : processLinksWithExpansions originalLinks addressMap m0
      = originalLinks.map .agg) :
    processLinksWithExpansions originalLinks addressMap
      (toggleLinkExpansion
        (toggleLinkExpansion { expandedLinks := m0, loadingTransactions := l0 }
          mainNodeId counterpartyNodeId (.ok txs)).state
        mainNodeId counterpartyNodeId (.ok txs)).state.expandedLinks
      = originalLinks.map .agg := by
  have hlen : 0 < txs.length := List.length_pos.mpr htxs
  have h1 : (toggleLinkExpansion { expandedLinks := m0, loadingTransactions := l0 }
      mainNodeId counterpartyNodeId (.ok txs)).state.expandedLinks
      = m0 ++ [(linkKey mainNodeId counterpartyNodeId, txs)] :=
    toggle_expands_of_hasKey_false hp hlen
  have h2 : hasKey ((toggleLinkExpansion { expandedLinks := m0, loadingTransactions := l0 }
      mainNodeId counterpartyNodeId (.ok txs)).state.expandedLinks)
      (linkKey mainNodeId counterpartyNodeId) = true := by
    rw [h1]; exact hasKey_append_self m0 _ txs
  rw [toggle_collapses_of_hasKey (.ok txs) h2, h1, delKey_append_self hp, horig]

theorem expand_collapse_project_id_witness :
    processLinksWithExpansions [aggAB] amAB
      (toggleLinkExpansion
        (toggleLinkExpansion { expandedLinks := [], loadingTransactions := [] }
          "A" "B" (.ok [txTen])).state
        "A" "B" (.ok [txTen])).state.expandedLinks
      = [aggAB].map .agg :=
  expand_collapse_project_id [aggAB] amAB "A" "B" [] [] [txTen] rfl (by decide) rfl

/-- C7.  The claim says the custom forces skip degenerate zero-length
separations and never produce non-finite velocities.  The code guards only
with `distance < minDistance` (resp. a tolerance test) and then divides by
`distance`; for a counterparty coincident with a main node the separation is
exactly zero, the division yields an infinity and the velocity update
computes `0 * Infinity = NaN`.  This theorem evaluates `pendulumMaintenance`
and `mainNodeRepulsion` at the failing input (counterparty at its main
node's exact coordinates): both velocity components become NaN. -/
theorem coincident_nodes_forces_nan :
    (pendulumStep 200 10 2 [] (.fin 1) [mainAtOrigin, cpCoincident] cpCoincident).vx
      = JsNum.nan ∧
    (pendulumStep 200 10 2 [] (.fin 1) [mainAtOrigin, cpCoincident] cpCoincident).vy
      = JsNum.nan ∧
    (mainNodeRepulsionStep (fun _ => 45) 2 1 (.fin 1) [mainAtOrigin, cpCoincident]
      cpCoincident).vx = JsNum.nan ∧
    (mainNodeRepulsionStep (fun _ => 45) 2 1 (.fin 1) [mainAtOrigin, cpCoincident]
      cpCoincident).vy = JsNum.nan := by
  refine ⟨?_, ?_, ?_, ?_⟩ <;>
    norm_num [pendulumStep, mainNodeRepulsionStep, mainAtOrigin, cpCoincident, JsNum.sub,
      JsNum.add, JsNum.neg, JsNum.mul, JsNum.div, JsNum.sqrt, JsNum.abs, JsNum.gt, JsNum.lt,
      Nat.sqrt]

/-- C8.  A locked counterparty is exempt from the pendulum-maintenance force:
one application leaves the node (in particular its velocity) unchanged,
whatever its distance to its main node. -/
theorem pendulumStep_locked_unchanged (idealDistance tolerance pendulumAlpha : ℚ)
    (lockedNodes : List String) (alpha : JsNum) (simulationNodes : List PNode) (node : PNode)
    (hlocked : lockedNodes.contains node.id = true) :
    pendulumStep idealDistance tolerance pendulumAlpha lockedNodes alpha simulationNodes node
      = node := by
  have hc : (!node.isMain && !(lockedNodes.contains node.id)) = false := by
    rw [hlocked]
    simp
  unfold pendulumStep
  rw [hc]
  simp

theorem pendulumStep_locked_unchanged_witness :
    pendulumStep 200 10 2 ["C"] (.fin (3/10)) [mainForLocked, cpLockedFar] cpLockedFar
      = cpLockedFar :=
  pendulumStep_locked_unchanged 200 10 2 ["C"] (.fin (3/10)) [mainForLocked, cpLockedFar]
    cpLockedFar (by decide)

/-- C9.  On drag end the node's fixed coordinates are set to its current
position (main and counterparty alike), and `onToggleNodeLock(id, true)` is
invoked — adding the counterparty to the locked set — exactly when the node
is a counterparty whose dragging flag was set (it was actually displaced),
not when it was merely clicked. -/
theorem dragended_pins_and_locks (d : PNode) (lockedNodes : List String) :
    (dragended d).node.fx = some d.x ∧ (dragended d).node.fy = some d.y ∧
    ((dragended d).lockToggled = true ↔ (d.isMain = false ∧ d.isDragging = true)) ∧
    ((lockedAfterDragEnd lockedNodes d).contains d.id
      = (lockedNodes.contains d.id || (!d.isMain && d.isDragging))) := by
  refine ⟨rfl, rfl, ?_, ?_⟩
  · simp [dragended]
  · unfold lockedAfterDragEnd addToSet
    have hl : (dragended d).lockToggled = (!d.isMain && d.isDragging) := rfl
    rw [hl]
    by_cases hlock : (!d.isMain && d.isDragging) = true
    · rw [if_pos hlock, hlock, Bool.or_true]
      by_cases hc : lockedNodes.contains d.id = true
      · rw [if_pos hc]
        exact hc
      · rw [if_neg hc]
        exact contains_append_singleton lockedNodes d.id
    · rw [if_neg hlock]
      rw [Bool.not_eq_true] at hlock
      rw [hlock, Bool.or_false]

/-- C10.  Every main node of the Graph Builder output has `usdNetflow`,
`volIn` and `volOut` equal to zero and no `connectedMainAddresses` set:
counterparty records whose address coincides with a main wallet never
accumulate flow fields onto it, because the accumulation branch runs only
for nodes with `isMain` false; the aggregated link for the pair is still
emitted (every surviving record appends its link regardless of the node
bookkeeping). -/
theorem mainNodes_no_flow_accumulation (cfg : BuilderConfig) (data : List DataSet)
    (n : GNode) (hn : n ∈ (getProcessedData cfg data).1) (hmain : n.isMain = true) :
    (n.usdNetflow = 0 ∧ n.volIn = 0 ∧ n.volOut = 0 ∧
      n.connectedMainAddresses = none) ∧
    (∀ (mainAddress : String) (st : List GNode × List GLink) (t : CPRecord),
      recordFiltered cfg t = false →
      (counterpartyStep cfg mainAddress st t).2
        = st.2 ++ [{ source := mainAddress, target := t.interactingAddress,
                     value := t.usdNetflow }]) := by
  constructor
  · exact (getProcessedData_nodes_inv cfg data).2 n hn hmain
  · intro mainAddress st t hf
    rw [counterpartyStep_links, if_neg (by simp [hf])]

theorem mainNodes_no_flow_accumulation_witness :
    selfMainNode.usdNetflow = 0 ∧ selfMainNode.volIn = 0 ∧ selfMainNode.volOut = 0 ∧
      selfMainNode.connectedMainAddresses = none :=
  (mainNodes_no_flow_accumulation {} dataSelfRecord selfMainNode
    (by
      have hf : recordFiltered {}
          ({ interactingAddress := "A", usdNetflow := 7, volIn := 7 } : CPRecord) = false := by
        norm_num [recordFiltered]
      have h : (getProcessedData {} dataSelfRecord).1 = [selfMainNode] := by
        simp [getProcessedData, dataSelfRecord, counterpartyStep, hf, mainPass, mainPassStep,
          findNode, selfMainNode]
      rw [h]
      exact List.mem_singleton_self _)
    rfl).1

end CBV
